import Mathlib

/-!
Verification development for the BNTX-to-DDS converter (src/main.cpp).

The C++ program is shallowly embedded: machine `u32` arithmetic is modelled
as `Nat` with explicit `% 2^32` wherever the C++ computation can wrap,
signed 64-bit pointers are modelled as `Int`, byte buffers are `List Nat`
(one entry per byte), and the byte accesses of the program are modelled
totally with `List.getD _ _ 0`.
-/

/-- `2^32`, the modulus of C++ `u32` arithmetic. -/
def U32 : Nat := 4294967296

/-- Byte fetch `f[p]` for a signed 64-bit position, total model
(out-of-range or negative positions read as 0). -/
def byteAt (f : List Nat) (p : Int) : Nat :=
  if p < 0 then 0 else f.getD p.toNat 0

/-- `Read16LE` from src/main.cpp: little-endian 16-bit read. -/
def Read16LE (f : List Nat) (p : Int) : Nat :=
  byteAt f p ||| (byteAt f (p + 1) <<< 8)

/-- `Read32LE` from src/main.cpp: little-endian 32-bit read. -/
def Read32LE (f : List Nat) (p : Int) : Nat :=
  byteAt f p ||| (byteAt f (p + 1) <<< 8) ||| (byteAt f (p + 2) <<< 16) |||
    (byteAt f (p + 3) <<< 24)

/-- `Read64LE` from src/main.cpp: little-endian 64-bit read. -/
def Read64LE (f : List Nat) (p : Int) : Nat :=
  byteAt f p ||| (byteAt f (p + 1) <<< 8) ||| (byteAt f (p + 2) <<< 16) |||
    (byteAt f (p + 3) <<< 24) ||| (byteAt f (p + 4) <<< 32) |||
    (byteAt f (p + 5) <<< 40) ||| (byteAt f (p + 6) <<< 48) |||
    (byteAt f (p + 7) <<< 56)

/-- Two's-complement reinterpretation of a 64-bit value as `i64`. -/
def toSigned64 (v : Nat) : Int :=
  if v < 2 ^ 63 then (v : Int) else (v : Int) - 2 ^ 64

/-- `Read64LE_Signed` from src/main.cpp. -/
def Read64LE_Signed (f : List Nat) (p : Int) : Int :=
  toSigned64 (Read64LE f p)

/-- Characters collected by `ReadString` from src/main.cpp: up to `maxLen`
bytes starting at `p`, stopping at the first zero byte. -/
def readStringAux (f : List Nat) (p : Int) : Nat → List Char
  | 0 => []
  | n + 1 =>
    let b := byteAt f p
    if b = 0 then [] else Char.ofNat b :: readStringAux f (p + 1) n

/-- `ReadString` from src/main.cpp. -/
def ReadString (f : List Nat) (p : Int) (maxLen : Nat) : String :=
  String.mk (readStringAux f p maxLen)

/-- The four bytes at position `p` (used for the magic comparisons done
with `memcmp` in src/main.cpp). -/
def magic4 (f : List Nat) (p : Int) : List Nat :=
  [byteAt f p, byteAt f (p + 1), byteAt f (p + 2), byteAt f (p + 3)]

/-- `DIV_ROUND_UP` from src/main.cpp, in u32 arithmetic:
`(n + d - 1) / d` with the numerator wrapping modulo `2^32`. -/
def DIV_ROUND_UP (n d : Nat) : Nat :=
  ((n + d - 1) % U32) / d

/-- `round_up` from src/main.cpp, in u32 arithmetic:
`((x - 1) | (y - 1)) + 1` where `x - 1` and `y - 1` wrap modulo `2^32`. -/
def round_up (x y : Nat) : Nat :=
  ((((x + U32 - 1) % U32) ||| ((y + U32 - 1) % U32)) + 1) % U32

/-- `getAddrBlockLinear` from src/main.cpp, all arithmetic in u32.
Multiplications and additions wrap modulo `2^32` (taking the modulus once
over each `+`/`*` expression tree is equivalent to taking it per
operation); divisions and remainders act on the wrapped values. -/
def getAddrBlockLinear (x y image_width bytes_per_pixel base_address block_height : Nat) :
    Nat :=
  let image_width_in_gobs := DIV_ROUND_UP ((image_width * bytes_per_pixel) % U32) 64
  let GOB_address :=
    (base_address
      + (y / ((8 * block_height) % U32)) * 512 * block_height * image_width_in_gobs
      + (((x * bytes_per_pixel) % U32) / 64) * 512 * block_height
      + ((y % ((8 * block_height) % U32)) / 8) * 512) % U32
  let x2 := (x * bytes_per_pixel) % U32
  (GOB_address + ((x2 % 64) / 32) * 256 + ((y % 8) / 2) * 64
    + ((x2 % 32) / 16) * 32 + (y % 2) * 16 + (x2 % 16)) % U32

/-- The source offset computed inside the deswizzle loop of src/main.cpp:
linear (`tileMode = 0`) or block-linear. -/
def srcPos (tileMode pitch w bpp block_height x y : Nat) : Nat :=
  if tileMode = 0 then (y * pitch + x * bpp) % U32
  else getAddrBlockLinear x y w bpp 0 block_height

/-- The destination offset `pos_ = (y * width + x) * bpp` of the
deswizzle loop, in u32 arithmetic. -/
def dstPos (w bpp x y : Nat) : Nat :=
  ((y * w + x) * bpp) % U32

/-- Destination pitch computed by `deswizzle` in src/main.cpp. -/
def deswizzlePitch (tileMode w bpp : Nat) : Nat :=
  if tileMode = 0 then round_up ((w * bpp) % U32) 32
  else round_up ((w * bpp) % U32) 64

/-- Output surface size computed by `deswizzle` in src/main.cpp. -/
def deswizzleSurfSize (tileMode alignment block_height pitch h : Nat) : Nat :=
  if tileMode = 0 then round_up ((pitch * h) % U32) alignment
  else round_up ((pitch * round_up h ((block_height * 8) % U32)) % U32) alignment

/-- Overwrite `l` with the bytes `bs` starting at position `p`
(the model of `memcpy` into a buffer). -/
def setBytes (l : List Nat) (p : Nat) (bs : List Nat) : List Nat :=
  match bs with
  | [] => l
  | b :: rest => setBytes (l.set p b) (p + 1) rest

/-- The `bpp` bytes read from `data` starting at `pos`
(the model of the `memcpy` source). -/
def readBytes (data : List Nat) (pos n : Nat) : List Nat :=
  (List.range n).map fun k => data.getD (pos + k) 0

/-- One guarded block copy of the deswizzle loop in src/main.cpp:
`if (pos + bpp <= surfSize && pos_ + bpp <= data.size())
   memcpy(&result[pos_], &data[pos], bpp)`.
The additions `pos + bpp` and `pos_ + bpp` are u32 additions. -/
def writeBlock (data : List Nat) (surfSize bpp pos pos_ : Nat) (acc : List Nat) :
    List Nat :=
  if (pos + bpp) % U32 ≤ surfSize ∧ (pos_ + bpp) % U32 ≤ data.length then
    setBytes acc pos_ (readBytes data pos bpp)
  else acc

/-- One row (`x`-loop) of the deswizzle double loop. -/
def deswizzleRow (data : List Nat) (surfSize bpp tileMode pitch w block_height y : Nat)
    (acc : List Nat) : List Nat :=
  (List.range w).foldl
    (fun acc2 x =>
      writeBlock data surfSize bpp (srcPos tileMode pitch w bpp block_height x y)
        (dstPos w bpp x y) acc2)
    acc

/-- `deswizzle` from src/main.cpp. -/
def deswizzle (width height blkWidth blkHeight bpp tileMode alignment size_range : Nat)
    (data : List Nat) : List Nat :=
  let block_height := 2 ^ size_range % U32
  let w := DIV_ROUND_UP width blkWidth
  let h := DIV_ROUND_UP height blkHeight
  let pitch := deswizzlePitch tileMode w bpp
  let surfSize := deswizzleSurfSize tileMode alignment block_height pitch h
  (List.range h).foldl
    (fun acc y => deswizzleRow data surfSize bpp tileMode pitch w block_height y acc)
    (List.replicate surfSize 0)

/-- True iff some guarded copy of the deswizzle loop accesses memory out of
bounds: the guard of src/main.cpp line 153 passes while the `memcpy` reads
past `data` or writes past the `surfSize`-byte output buffer. -/
def deswizzleOob (width height blkWidth blkHeight bpp tileMode alignment size_range : Nat)
    (data : List Nat) : Bool :=
  let block_height := 2 ^ size_range % U32
  let w := DIV_ROUND_UP width blkWidth
  let h := DIV_ROUND_UP height blkHeight
  let pitch := deswizzlePitch tileMode w bpp
  let surfSize := deswizzleSurfSize tileMode alignment block_height pitch h
  (List.range h).any fun y => (List.range w).any fun x =>
    let pos := srcPos tileMode pitch w bpp block_height x y
    let pos_ := dstPos w bpp x y
    (decide ((pos + bpp) % U32 ≤ surfSize) && decide ((pos_ + bpp) % U32 ≤ data.length))
      && (decide (data.length < pos + bpp) || decide (surfSize < pos_ + bpp))

/-- The GOB address-translation formula exactly as the specification words
it (claim C2): GOB base address from the GOB-row group, the horizontal GOB
column and the intra-block GOB row, plus the bit-sliced intra-GOB offset,
all in u32 integer arithmetic with `blockHeightGobs = 2^blockHeightLog2`. -/
def gobAddrSpec (x y gridW bytesPerBlock blockHeightGobs : Nat) : Nat :=
  let widthInGobs := DIV_ROUND_UP ((gridW * bytesPerBlock) % U32) 64
  let gobBase :=
    ((y / ((8 * blockHeightGobs) % U32)) * 512 * blockHeightGobs * widthInGobs
      + (((x * bytesPerBlock) % U32) / 64) * 512 * blockHeightGobs
      + ((y % ((8 * blockHeightGobs) % U32)) / 8) * 512) % U32
  let xb := (x * bytesPerBlock) % U32
  (gobBase + ((xb % 64) / 32) * 256 + ((y % 8) / 2) * 64
    + ((xb % 32) / 16) * 32 + (y % 2) * 16 + (xb % 16)) % U32

/-- C1. The claim asserts that with a payload truncated below its declared
size the deswizzle engine "performs no out-of-bounds buffer access".  The
code violates this: its guard compares the source offset against the
output surface size and the destination offset against the payload length
(swapped operands), so for a tiled 8x1-block texture with 16-byte blocks
and a payload truncated to 80 bytes, the guarded `memcpy` at grid block
(4,0) reads `data[512..528)` from an 80-byte payload.  This theorem
evaluates the engine's access pattern at that failing input. -/
theorem c1_truncated_payload_reads_out_of_bounds :
    deswizzleOob 8 1 1 1 16 1 1 0 (List.replicate 80 0) = true := by decide

/-- C2. For every destination grid coordinate in tiled mode, the source
offset computed by the deswizzle engine equals the specification's GOB
address-translation value (GOB-row group, horizontal-GOB column and
intra-block GOB-row terms scaled by 512*blockHeightGobs / 512, plus the
bit-sliced intra-GOB offset), with `blockHeightGobs = 2^blockHeightLog2`,
bit for bit in u32 arithmetic. -/
theorem c2_tiled_source_offset_matches_gob_formula
    (tileMode pitch x y gridW bpb l : Nat) (ht : tileMode ≠ 0) (hl : l < 32) :
    srcPos tileMode pitch gridW bpb (2 ^ l % U32) x y =
      gobAddrSpec x y gridW bpb (2 ^ l) := by
  have h2 : (2 : Nat) ^ l % U32 = 2 ^ l := by
    apply Nat.mod_eq_of_lt
    have : (2 : Nat) ^ l < 2 ^ 32 := Nat.pow_lt_pow_right (by norm_num) hl
    simpa [U32] using this
  rw [srcPos, if_neg ht, h2]
  simp [getAddrBlockLinear, gobAddrSpec]

theorem c2_tiled_source_offset_matches_gob_formula_witness :
    (1 ≠ 0 ∧ 4 < 32) ∧
      srcPos 1 128 8 16 (2 ^ 4 % U32) 5 3 = gobAddrSpec 5 3 8 16 (2 ^ 4) :=
  ⟨⟨by decide, by decide⟩,
    c2_tiled_source_offset_matches_gob_formula 1 128 5 3 8 16 4 (by decide) (by decide)⟩
theorem setBytes_length (bs : List Nat) : ∀ (l : List Nat) (p : Nat),
    (setBytes l p bs).length = l.length := by
  induction bs with
  | nil => intro l p; rfl
  | cons b rest ih =>
    intro l p
    rw [setBytes, ih, List.length_set]

theorem setBytes_getD_out (bs : List Nat) : ∀ (l : List Nat) (p i : Nat),
    (i < p ∨ p + bs.length ≤ i) → (setBytes l p bs).getD i 0 = l.getD i 0 := by
  induction bs with
  | nil => intro l p i _; rfl
  | cons b rest ih =>
    intro l p i h
    have hlen : (b :: rest).length = rest.length + 1 := rfl
    rw [setBytes, ih (l.set p b) (p + 1) i (by rw [hlen] at h; omega)]
    have hne : i ≠ p := by rw [hlen] at h; omega
    simp [List.getD, List.getElem?_set_ne (Ne.symm hne)]

theorem setBytes_getD_in (bs : List Nat) : ∀ (l : List Nat) (p j : Nat),
    p + bs.length ≤ l.length → j < bs.length →
    (setBytes l p bs).getD (p + j) 0 = bs.getD j 0 := by
  induction bs with
  | nil => intro l p j _ hj; exact absurd hj (by simp)
  | cons b rest ih =>
    intro l p j hlen hj
    match j with
    | 0 =>
      rw [setBytes]
      rw [setBytes_getD_out rest (l.set p b) (p + 1) (p + 0) (by omega)]
      have hp : p < l.length := by simp at hlen; omega
      simp [List.getD, List.getElem?_set_self, hp]
    | j' + 1 =>
      rw [setBytes]
      have : p + (j' + 1) = (p + 1) + j' := by omega
      rw [this, ih (l.set p b) (p + 1) j' (by simp at hlen ⊢; omega) (by simp at hj; omega)]
      rfl

theorem foldlPreserve {α β : Type} (P : α → Prop) (f : α → β → α) :
    ∀ (l : List β) (init : α), P init → (∀ a b, b ∈ l → P a → P (f a b)) →
    P (l.foldl f init) := by
  intro l
  induction l with
  | nil => intro init h _; exact h
  | cons b rest ih =>
    intro init h hstep
    exact ih (f init b) (hstep init b (by simp) h)
      (fun a c hc ha => hstep a c (by simp [hc]) ha)

theorem readBytes_length (data : List Nat) (pos n : Nat) : (readBytes data pos n).length = n := by
  simp [readBytes]

theorem writeBlock_length (data : List Nat) (surfSize bpp pos pos_ : Nat) (acc : List Nat) :
    (writeBlock data surfSize bpp pos pos_ acc).length = acc.length := by
  rw [writeBlock]
  split
  · rw [setBytes_length]
  · rfl

theorem deswizzle_length (width height blkWidth blkHeight bpp tileMode alignment size_range : Nat)
    (data : List Nat) :
    (deswizzle width height blkWidth blkHeight bpp tileMode alignment size_range data).length =
      deswizzleSurfSize tileMode alignment (2 ^ size_range % U32)
        (deswizzlePitch tileMode (DIV_ROUND_UP width blkWidth) bpp)
        (DIV_ROUND_UP height blkHeight) := by
  rw [deswizzle]
  apply foldlPreserve (fun acc : List Nat => acc.length = _)
  · simp
  · intro a y _ ha
    rw [deswizzleRow]
    apply foldlPreserve (fun acc : List Nat => acc.length = _)
    · exact ha
    · intro a2 x _ ha2
      rw [writeBlock_length]
      exact ha2

theorem le_or_self (a b : Nat) : a ≤ a ||| b :=
  Nat.le_of_testBit fun i h => by simp [Nat.testBit_or, h]

theorem round_up_bounds (x y : Nat) (hx : 1 ≤ x) (hx2 : x ≤ 2 ^ 31) (hy : 1 ≤ y)
    (hy2 : y ≤ 2 ^ 31) : x ≤ round_up x y ∧ round_up x y ≤ 2 ^ 31 := by
  have hU : U32 = 2 ^ 32 := by norm_num [U32]
  have hxm : (x + U32 - 1) % U32 = x - 1 := by
    have h1 : x + U32 - 1 = (x - 1) + U32 := by omega
    rw [h1, Nat.add_mod_right]
    exact Nat.mod_eq_of_lt (by omega)
  have hym : (y + U32 - 1) % U32 = y - 1 := by
    have h1 : y + U32 - 1 = (y - 1) + U32 := by omega
    rw [h1, Nat.add_mod_right]
    exact Nat.mod_eq_of_lt (by omega)
  have hor : (x - 1) ||| (y - 1) < 2 ^ 31 :=
    Nat.or_lt_two_pow (by omega) (by omega)
  have hlt : ((x - 1) ||| (y - 1)) + 1 < U32 := by
    rw [hU]; have : (2:Nat)^31 < 2^32 := by norm_num
    omega
  rw [round_up, hxm, hym, Nat.mod_eq_of_lt hlt]
  constructor
  · have := le_or_self (x - 1) (y - 1)
    omega
  · omega

theorem getD_replicate_zero (n i : Nat) : (List.replicate n (0 : Nat)).getD i 0 = 0 := by
  simp [List.getD, List.getElem?_replicate]
  split <;> rfl

theorem deswizzleLoop_high (data : List Nat)
    (surfSize bpp tileMode pitch w block_height h : Nat) :
    ∀ i, w * h * bpp ≤ i →
    ((List.range h).foldl
      (fun acc y => deswizzleRow data surfSize bpp tileMode pitch w block_height y acc)
      (List.replicate surfSize 0)).getD i 0 = 0 := by
  apply foldlPreserve (fun acc : List Nat => ∀ i, w * h * bpp ≤ i → acc.getD i 0 = 0)
  · intro i _
    exact getD_replicate_zero _ _
  · intro acc y hy ha
    rw [deswizzleRow]
    apply foldlPreserve (fun acc2 : List Nat => ∀ i, w * h * bpp ≤ i → acc2.getD i 0 = 0)
    · exact ha
    · intro acc2 x hx ha2 i hi
      rw [writeBlock]
      split
      · rw [setBytes_getD_out]
        · exact ha2 i hi
        · right
          rw [readBytes_length]
          have hyh : y < h := List.mem_range.mp hy
          have hxw : x < w := List.mem_range.mp hx
          have h1 : dstPos w bpp x y ≤ (y * w + x) * bpp := by
            rw [dstPos]; exact Nat.mod_le _ _
          have h3 : y * w + x + 1 ≤ h * w := by
            calc y * w + x + 1 ≤ y * w + w := by omega
            _ = (y + 1) * w := by ring
            _ ≤ h * w := Nat.mul_le_mul_right w hyh
          have h4 : (y * w + x + 1) * bpp ≤ w * h * bpp := by
            calc (y * w + x + 1) * bpp ≤ (h * w) * bpp := Nat.mul_le_mul_right bpp h3
            _ = w * h * bpp := by ring
          have h2 : (y * w + x) * bpp + bpp = (y * w + x + 1) * bpp := by ring
          omega
      · exact ha2 i hi

/-- C8 counterexample. The claim says the pre-truncation surface size is
always at least `gridW*gridH*bytesPerBlock`, for any alignment.  It is
false: with `alignment = 0` the u32 computation `round_up(x, 0)` wraps to
0, so a 4x4 BC-format texture (one 8-byte block) gets a 0-byte surface,
smaller than the expected 8 bytes. -/
theorem c8_surface_size_not_always_ge_expected :
    ¬ (DIV_ROUND_UP 4 4 * DIV_ROUND_UP 4 4 * 8 ≤
        (deswizzle 4 4 4 4 8 0 0 0 []).length) := by decide

/-- C8 as amended: if `alignment ≥ 1`, `blockHeightLog2 ≤ 28`, and the u32
surface-size computation does not overflow (grid row bytes, padded row
count times pitch, and alignment all at most `2^31`), then the
pre-truncation output surface size is at least the final truncated
expected size `gridW * gridH * bytesPerBlock`. -/
theorem c8_amended_surface_size_ge_expected
    (width height blkWidth blkHeight bpp tileMode alignment size_range : Nat)
    (data : List Nat)
    (hal1 : 1 ≤ alignment) (hal2 : alignment ≤ 2 ^ 31)
    (hsr : size_range ≤ 28)
    (hw : DIV_ROUND_UP width blkWidth * bpp ≤ 2 ^ 31)
    (hh : DIV_ROUND_UP height blkHeight ≤ 2 ^ 31)
    (hrows : deswizzlePitch tileMode (DIV_ROUND_UP width blkWidth) bpp *
        round_up (DIV_ROUND_UP height blkHeight) (8 * 2 ^ size_range) ≤ 2 ^ 31)
    (hlin : deswizzlePitch tileMode (DIV_ROUND_UP width blkWidth) bpp *
        DIV_ROUND_UP height blkHeight ≤ 2 ^ 31) :
    DIV_ROUND_UP width blkWidth * DIV_ROUND_UP height blkHeight * bpp ≤
      (deswizzle width height blkWidth blkHeight bpp tileMode alignment size_range data).length := by
  rw [deswizzle_length]
  set w := DIV_ROUND_UP width blkWidth with hwdef
  set h := DIV_ROUND_UP height blkHeight with hhdef
  set pitch := deswizzlePitch tileMode w bpp with hpdef
  by_cases hw0 : w * bpp = 0
  · have : w * h * bpp = 0 := by
      rcases Nat.mul_eq_zero.mp hw0 with h1 | h1 <;> simp [h1, Nat.mul_comm, Nat.mul_assoc]
    omega
  by_cases hh0 : h = 0
  · simp [hh0]
  have hwb1 : 1 ≤ w * bpp := Nat.one_le_iff_ne_zero.mpr hw0
  have hh1 : 1 ≤ h := Nat.one_le_iff_ne_zero.mpr hh0
  have hwbm : (w * bpp) % U32 = w * bpp := by
    apply Nat.mod_eq_of_lt
    have : (2:Nat) ^ 31 < U32 := by norm_num [U32]
    omega
  have hpitch : w * bpp ≤ pitch ∧ pitch ≤ 2 ^ 31 := by
    rw [hpdef, deswizzlePitch, hwbm]
    split
    · exact round_up_bounds (w * bpp) 32 hwb1 hw (by norm_num) (by norm_num)
    · exact round_up_bounds (w * bpp) 64 hwb1 hw (by norm_num) (by norm_num)
  have hpitch1 : 1 ≤ pitch := le_trans hwb1 hpitch.1
  have goal1 : w * h * bpp ≤ pitch * h := by
    calc w * h * bpp = (w * bpp) * h := by ring
    _ ≤ pitch * h := Nat.mul_le_mul_right h hpitch.1
  rw [deswizzleSurfSize]
  split
  · have hph : (pitch * h) % U32 = pitch * h := by
      apply Nat.mod_eq_of_lt
      have : (2:Nat) ^ 31 < U32 := by norm_num [U32]
      omega
    rw [hph]
    have := round_up_bounds (pitch * h) alignment
      (le_trans hh1 (Nat.le_mul_of_pos_left h hpitch1)) hlin hal1 hal2
    omega
  · have hbh : (2 : Nat) ^ size_range % U32 = 2 ^ size_range := by
      apply Nat.mod_eq_of_lt
      have h1 : (2:Nat) ^ size_range ≤ 2 ^ 28 := Nat.pow_le_pow_right (by norm_num) hsr
      have : (2:Nat) ^ 28 < U32 := by norm_num [U32]
      omega
    have hbh8 : (2 : Nat) ^ size_range % U32 * 8 % U32 = 8 * 2 ^ size_range := by
      rw [hbh]
      have h1 : (2:Nat) ^ size_range * 8 ≤ 2 ^ 31 := by
        have : (2:Nat) ^ size_range ≤ 2 ^ 28 := Nat.pow_le_pow_right (by norm_num) hsr
        calc (2:Nat) ^ size_range * 8 ≤ 2 ^ 28 * 8 := Nat.mul_le_mul_right 8 this
        _ = 2 ^ 31 := by norm_num
      rw [Nat.mod_eq_of_lt (by
        have : (2:Nat) ^ 31 < U32 := by norm_num [U32]
        omega)]
      ring
    rw [hbh8]
    have hbh81 : 1 ≤ 8 * 2 ^ size_range := Nat.one_le_iff_ne_zero.mpr (by positivity)
    have hbh82 : 8 * 2 ^ size_range ≤ 2 ^ 31 := by
      have : (2:Nat) ^ size_range ≤ 2 ^ 28 := Nat.pow_le_pow_right (by norm_num) hsr
      calc 8 * 2 ^ size_range ≤ 8 * 2 ^ 28 := Nat.mul_le_mul_left 8 this
      _ = 2 ^ 31 := by norm_num
    have hrow := round_up_bounds h (8 * 2 ^ size_range) hh1 hh hbh81 hbh82
    set rows := round_up h (8 * 2 ^ size_range) with hrdef
    have hpr : (pitch * rows) % U32 = pitch * rows := by
      apply Nat.mod_eq_of_lt
      have : (2:Nat) ^ 31 < U32 := by norm_num [U32]
      omega
    rw [hpr]
    have hpr1 : 1 ≤ pitch * rows :=
      Nat.mul_pos hpitch1 (le_trans hh1 hrow.1)
    have := round_up_bounds (pitch * rows) alignment hpr1 hrows hal1 hal2
    have : pitch * h ≤ pitch * rows := Nat.mul_le_mul_left pitch hrow.1
    omega

theorem c8_amended_surface_size_ge_expected_witness :
    DIV_ROUND_UP 4 4 * DIV_ROUND_UP 4 4 * 8 ≤
      (deswizzle 4 4 4 4 8 0 1 0 []).length :=
  c8_amended_surface_size_ge_expected 4 4 4 4 8 0 1 0 []
    (by decide) (by decide) (by decide) (by decide) (by decide) (by decide) (by decide)

/-- C10. If the expected size `gridW * gridH * bytesPerBlock` does not
overflow u32, every byte of the deswizzle output at an index at or beyond
the expected size is zero: the engine writes only inside the compact
row-major prefix, so the caller's truncation in `saveTextures` discards
only zero bytes. -/
theorem c10_bytes_beyond_expected_are_zero
    (width height blkWidth blkHeight bpp tileMode alignment size_range : Nat)
    (data : List Nat)
    (hexp : DIV_ROUND_UP width blkWidth * DIV_ROUND_UP height blkHeight * bpp < U32) :
    ∀ i, DIV_ROUND_UP width blkWidth * DIV_ROUND_UP height blkHeight * bpp ≤ i →
    (deswizzle width height blkWidth blkHeight bpp tileMode alignment size_range data).getD i 0
      = 0 := by
  rw [deswizzle]
  exact deswizzleLoop_high data _ bpp tileMode _ _ _ _

theorem c10_bytes_beyond_expected_are_zero_witness :
    (DIV_ROUND_UP 8 1 * DIV_ROUND_UP 1 1 * 16 < U32 ∧
      DIV_ROUND_UP 8 1 * DIV_ROUND_UP 1 1 * 16 ≤ 200) ∧
    (deswizzle 8 1 1 1 16 1 1 0 (List.replicate 1024 7)).getD 200 0 = 0 :=
  ⟨⟨by decide, by decide⟩,
    c10_bytes_beyond_expected_are_zero 8 1 1 1 16 1 1 0 (List.replicate 1024 7)
      (by decide) 200 (by decide)⟩

/-- The specification's description of the linear-mode output (claim C3):
the input reinterpreted as `rows` rows of `pitch` bytes with the per-row
padding beyond `rowBytes` deleted. -/
def unpadLinear (data : List Nat) (pitch rowBytes rows : Nat) : List Nat :=
  (List.range rows).flatMap fun y => (data.drop (y * pitch)).take rowBytes

theorem unpadLinear_def (data : List Nat) (pitch rowBytes rows : Nat) :
    unpadLinear data pitch rowBytes rows =
      (List.range rows).flatMap fun y => (data.drop (y * pitch)).take rowBytes := rfl

theorem readBytes_getD (data : List Nat) (pos n k : Nat) (hk : k < n) :
    (readBytes data pos n).getD k 0 = data.getD (pos + k) 0 := by
  rw [readBytes, List.getD_eq_getElem _ 0 (by simpa using hk)]
  simp

theorem blockIdx_lt (A m bpp k : Nat) (hk : k < bpp) (hA : A + 1 ≤ m) :
    A * bpp + k < m * bpp := by
  have h2 : (A + 1) * bpp ≤ m * bpp := Nat.mul_le_mul_right bpp hA
  have h1 : (A + 1) * bpp = A * bpp + bpp := by ring
  omega

/-- Partial row fold of the deswizzle loop in linear mode. -/
def rowFoldL (data : List Nat) (surfSize bpp pitch w bh y x1 : Nat) (acc : List Nat) :
    List Nat :=
  (List.range x1).foldl
    (fun acc2 x =>
      writeBlock data surfSize bpp (srcPos 0 pitch w bpp bh x y) (dstPos w bpp x y) acc2)
    acc

theorem deswizzleRow_eq_rowFoldL (data : List Nat) (surfSize bpp pitch w bh y : Nat)
    (acc : List Nat) :
    deswizzleRow data surfSize bpp 0 pitch w bh y acc =
      rowFoldL data surfSize bpp pitch w bh y w acc := rfl

theorem rowFoldL_linear (data : List Nat) (surfSize bpp pitch w bh y : Nat)
    (hguard : ∀ x, x < w →
      y * pitch + x * bpp + bpp ≤ surfSize ∧
      (y * w + x) * bpp + bpp ≤ data.length ∧
      (y * w + x) * bpp + bpp ≤ surfSize)
    (hU : surfSize < U32) :
    ∀ x1, x1 ≤ w → ∀ acc : List Nat, acc.length = surfSize →
      (rowFoldL data surfSize bpp pitch w bh y x1 acc).length = surfSize ∧
      (∀ x0 k, x0 < x1 → k < bpp →
        (rowFoldL data surfSize bpp pitch w bh y x1 acc).getD ((y * w + x0) * bpp + k) 0 =
          data.getD (y * pitch + x0 * bpp + k) 0) ∧
      (∀ i, i < y * w * bpp ∨ (y * w + x1) * bpp ≤ i →
        (rowFoldL data surfSize bpp pitch w bh y x1 acc).getD i 0 = acc.getD i 0) := by
  intro x1
  induction x1 with
  | zero =>
    intro _ acc hacc
    exact ⟨hacc, fun x0 k h _ => absurd h (Nat.not_lt_zero x0), fun i _ => rfl⟩
  | succ x1 ih =>
    intro hx1 acc hacc
    have hx1w : x1 < w := hx1
    obtain ⟨ihlen, ihval, ihpres⟩ := ih (le_of_lt hx1w) acc hacc
    obtain ⟨hg1, hg2, hg3⟩ := hguard x1 hx1w
    have hstep : rowFoldL data surfSize bpp pitch w bh y (x1 + 1) acc =
        writeBlock data surfSize bpp (srcPos 0 pitch w bpp bh x1 y) (dstPos w bpp x1 y)
          (rowFoldL data surfSize bpp pitch w bh y x1 acc) := by
      rw [rowFoldL, rowFoldL, List.range_succ, List.foldl_append]
      rfl
    have hsrcv : srcPos 0 pitch w bpp bh x1 y = y * pitch + x1 * bpp := by
      rw [srcPos, if_pos rfl]
      exact Nat.mod_eq_of_lt (by omega)
    have hdstv : dstPos w bpp x1 y = (y * w + x1) * bpp := by
      rw [dstPos]
      exact Nat.mod_eq_of_lt (by omega)
    have hguard_true : (srcPos 0 pitch w bpp bh x1 y + bpp) % U32 ≤ surfSize ∧
        (dstPos w bpp x1 y + bpp) % U32 ≤ data.length := by
      rw [hsrcv, hdstv, Nat.mod_eq_of_lt (by omega), Nat.mod_eq_of_lt (by omega)]
      exact ⟨hg1, hg2⟩
    rw [hstep, writeBlock, if_pos hguard_true, hdstv, hsrcv]
    refine ⟨by rw [setBytes_length]; exact ihlen, ?_, ?_⟩
    · intro x0 k hx0 hk
      rcases Nat.lt_or_ge x0 x1 with hlt | hge
      · rw [setBytes_getD_out]
        · exact ihval x0 k hlt hk
        · left
          exact blockIdx_lt (y * w + x0) (y * w + x1) bpp k hk (by omega)
      · have hx0e : x0 = x1 := by omega
        subst hx0e
        rw [setBytes_getD_in]
        · rw [readBytes_getD data _ _ k hk]
        · rw [readBytes_length, ihlen]
          exact hg3
        · rw [readBytes_length]
          exact hk
    · intro i hi
      have hmono1 : y * w * bpp ≤ (y * w + x1) * bpp :=
        Nat.mul_le_mul_right bpp (by omega)
      have hmono2 : (y * w + x1) * bpp + bpp = (y * w + (x1 + 1)) * bpp := by ring
      rw [setBytes_getD_out]
      · apply ihpres
        rcases hi with h | h
        · exact Or.inl h
        · right
          have : (y * w + x1) * bpp ≤ (y * w + (x1 + 1)) * bpp :=
            Nat.mul_le_mul_right bpp (by omega)
          omega
      · rw [readBytes_length]
        rcases hi with h | h
        · exact Or.inl (by omega)
        · right
          omega

theorem colFoldL_linear (data : List Nat) (surfSize bpp pitch w bh h : Nat)
    (hguard : ∀ y x, y < h → x < w →
      y * pitch + x * bpp + bpp ≤ surfSize ∧
      (y * w + x) * bpp + bpp ≤ data.length ∧
      (y * w + x) * bpp + bpp ≤ surfSize)
    (hU : surfSize < U32) :
    ∀ y1, y1 ≤ h →
      ((List.range y1).foldl
        (fun acc y => deswizzleRow data surfSize bpp 0 pitch w bh y acc)
        (List.replicate surfSize 0)).length = surfSize ∧
      (∀ y0 x0 k, y0 < y1 → x0 < w → k < bpp →
        ((List.range y1).foldl
          (fun acc y => deswizzleRow data surfSize bpp 0 pitch w bh y acc)
          (List.replicate surfSize 0)).getD ((y0 * w + x0) * bpp + k) 0 =
          data.getD (y0 * pitch + x0 * bpp + k) 0) := by
  intro y1
  induction y1 with
  | zero =>
    intro _
    exact ⟨by simp, fun y0 x0 k h0 _ _ => absurd h0 (Nat.not_lt_zero y0)⟩
  | succ y1 ih =>
    intro hy1
    have hy1h : y1 < h := hy1
    obtain ⟨ihlen, ihval⟩ := ih (le_of_lt hy1h)
    have hstep : (List.range (y1 + 1)).foldl
        (fun acc y => deswizzleRow data surfSize bpp 0 pitch w bh y acc)
        (List.replicate surfSize 0) =
        deswizzleRow data surfSize bpp 0 pitch w bh y1
          ((List.range y1).foldl
            (fun acc y => deswizzleRow data surfSize bpp 0 pitch w bh y acc)
            (List.replicate surfSize 0)) := by
      rw [List.range_succ, List.foldl_append]
      rfl
    have hrow := rowFoldL_linear data surfSize bpp pitch w bh y1
      (fun x hx => hguard y1 x hy1h hx) hU w (le_refl w) _ ihlen
    rw [hstep, deswizzleRow_eq_rowFoldL]
    refine ⟨hrow.1, ?_⟩
    intro y0 x0 k hy0 hx0 hk
    rcases Nat.lt_or_ge y0 y1 with hlt | hge
    · rw [hrow.2.2]
      · exact ihval y0 x0 k hlt hx0 hk
      · left
        have h1 : (y0 * w + x0) * bpp + k < (y0 * w + w) * bpp :=
          blockIdx_lt (y0 * w + x0) (y0 * w + w) bpp k hk (by omega)
        have h2 : (y0 * w + w) * bpp ≤ y1 * w * bpp := by
          apply Nat.mul_le_mul_right
          have h3 : y0 * w + w = (y0 + 1) * w := by ring
          rw [h3]
          exact Nat.mul_le_mul_right w (by omega)
        omega
    · have hy0e : y0 = y1 := by omega
      subst hy0e
      exact hrow.2.1 x0 k hx0 hk

theorem unpadLinear_length (data : List Nat) (pitch rowBytes rows : Nat)
    (hr : ∀ y, y < rows → y * pitch + rowBytes ≤ data.length) :
    (unpadLinear data pitch rowBytes rows).length = rows * rowBytes := by
  induction rows with
  | zero => simp [unpadLinear_def]
  | succ n ih =>
    rw [unpadLinear_def, List.range_succ, List.flatMap_append, List.length_append]
    have h1 := ih (fun y hy => hr y (by omega))
    rw [unpadLinear_def] at h1
    rw [h1]
    have h2 : n * pitch + rowBytes ≤ data.length := hr n (by omega)
    have h4 : (n + 1) * rowBytes = n * rowBytes + rowBytes := by ring
    have h5 : (List.take rowBytes (List.drop (n * pitch) data)).length = rowBytes := by
      rw [List.length_take, List.length_drop]
      omega
    have h6 : ([n].flatMap fun y => (data.drop (y * pitch)).take rowBytes) =
        (data.drop (n * pitch)).take rowBytes := by simp
    rw [h6, h5]
    omega

theorem getD_drop_take (data : List Nat) (s m j : Nat) (hj : j < m)
    (hlen : s + m ≤ data.length) :
    ((data.drop s).take m).getD j 0 = data.getD (s + j) 0 := by
  have h1 : j < ((data.drop s).take m).length := by
    simp [List.length_take, List.length_drop]
    omega
  rw [List.getD_eq_getElem _ 0 h1, List.getD_eq_getElem _ 0 (by omega)]
  rw [List.getElem_take, List.getElem_drop]

theorem unpadLinear_getD (data : List Nat) (pitch rowBytes rows : Nat)
    (hr : ∀ y, y < rows → y * pitch + rowBytes ≤ data.length) :
    ∀ y0 j, y0 < rows → j < rowBytes →
    (unpadLinear data pitch rowBytes rows).getD (y0 * rowBytes + j) 0 =
      data.getD (y0 * pitch + j) 0 := by
  induction rows with
  | zero => intro y0 j h0 _; exact absurd h0 (Nat.not_lt_zero y0)
  | succ n ih =>
    intro y0 j hy0 hj
    rw [unpadLinear_def, List.range_succ, List.flatMap_append]
    have hlenpre : ((List.range n).flatMap
        fun y => (data.drop (y * pitch)).take rowBytes).length = n * rowBytes := by
      have h1 := unpadLinear_length data pitch rowBytes n (fun y hy => hr y (by omega))
      rw [unpadLinear_def] at h1
      exact h1
    rcases Nat.lt_or_ge y0 n with hlt | hge
    · rw [List.getD_append _ _ 0 _ (by
        rw [hlenpre]
        exact blockIdx_lt y0 n rowBytes j hj (by omega))]
      have h2 := ih (fun y hy => hr y (by omega)) y0 j hlt hj
      rw [unpadLinear_def] at h2
      exact h2
    · have hy0e : y0 = n := by omega
      subst hy0e
      rw [List.getD_append_right _ _ 0 _ (by rw [hlenpre]; exact Nat.le_add_right _ _)]
      have hsimp : y0 * rowBytes + j - ((List.range y0).flatMap
          fun y => (data.drop (y * pitch)).take rowBytes).length = j := by
        rw [hlenpre]
        omega
      rw [hsimp]
      have hsingle : ([y0].flatMap fun y => (data.drop (y * pitch)).take rowBytes) =
          (data.drop (y0 * pitch)).take rowBytes := by simp
      rw [hsingle]
      exact getD_drop_take data (y0 * pitch) rowBytes j hj (hr y0 (by omega))

theorem getD_take (l : List Nat) (n i : Nat) (hi : i < n) (hl : i < l.length) :
    (l.take n).getD i 0 = l.getD i 0 := by
  rw [List.getD_eq_getElem _ 0 (by simp [List.length_take]; omega),
      List.getD_eq_getElem _ 0 hl]
  exact List.getElem_take ..

theorem ext_of_getD (l1 l2 : List Nat) (hl : l1.length = l2.length)
    (hv : ∀ i, i < l1.length → l1.getD i 0 = l2.getD i 0) : l1 = l2 := by
  apply List.ext_getElem hl
  intro i h1 h2
  have h3 := hv i h1
  rwa [List.getD_eq_getElem _ 0 h1, List.getD_eq_getElem _ 0 h2] at h3

theorem deswizzle_linear_core (data : List Nat) (bpp w h bh pitch surfSize : Nat)
    (hb : 0 < bpp)
    (hwp : w * bpp ≤ pitch)
    (hps : pitch * h ≤ surfSize)
    (hU : surfSize < U32)
    (hdata : pitch * h ≤ data.length) :
    ((List.range h).foldl (fun acc y => deswizzleRow data surfSize bpp 0 pitch w bh y acc)
        (List.replicate surfSize 0)).take (w * h * bpp) =
      unpadLinear data pitch (w * bpp) h := by
  have hguard : ∀ y x, y < h → x < w →
      y * pitch + x * bpp + bpp ≤ surfSize ∧
      (y * w + x) * bpp + bpp ≤ data.length ∧
      (y * w + x) * bpp + bpp ≤ surfSize := by
    intro y x hy hx
    have hsrc : y * pitch + x * bpp + bpp ≤ pitch * h := by
      have h1 : x * bpp + bpp = (x + 1) * bpp := by ring
      have h2 : (x + 1) * bpp ≤ w * bpp := Nat.mul_le_mul_right bpp (by omega)
      have h3 : y * pitch + pitch = (y + 1) * pitch := by ring
      have h4 : (y + 1) * pitch ≤ h * pitch := Nat.mul_le_mul_right pitch (by omega)
      have h5 : h * pitch = pitch * h := by ring
      omega
    have hdst : (y * w + x) * bpp + bpp ≤ pitch * h := by
      have h1 : (y * w + x) * bpp + bpp = (y * w + x + 1) * bpp := by ring
      have h2 : y * w + x + 1 ≤ h * w := by
        calc y * w + x + 1 ≤ y * w + w := by omega
        _ = (y + 1) * w := by ring
        _ ≤ h * w := Nat.mul_le_mul_right w (by omega)
      have h3 : (y * w + x + 1) * bpp ≤ (h * w) * bpp := Nat.mul_le_mul_right bpp h2
      have h4 : (h * w) * bpp = (w * bpp) * h := by ring
      have h5 : (w * bpp) * h ≤ pitch * h := Nat.mul_le_mul_right h hwp
      omega
    exact ⟨by omega, by omega, by omega⟩
  obtain ⟨hlen, hval⟩ := colFoldL_linear data surfSize bpp pitch w bh h hguard hU h (le_refl h)
  have hrowlen : ∀ y, y < h → y * pitch + w * bpp ≤ data.length := by
    intro y hy
    have h2 : w * bpp ≤ pitch := hwp
    have h3 : y * pitch + pitch = (y + 1) * pitch := by ring
    have h4 : (y + 1) * pitch ≤ h * pitch := Nat.mul_le_mul_right pitch (by omega)
    have h5 : h * pitch = pitch * h := by ring
    omega
  apply ext_of_getD
  · rw [List.length_take, hlen, unpadLinear_length data pitch (w * bpp) h hrowlen]
    have h6 : h * (w * bpp) = w * h * bpp := by ring
    have h7 : w * h * bpp = (w * bpp) * h := by ring
    have h8 : (w * bpp) * h ≤ pitch * h := Nat.mul_le_mul_right h hwp
    omega
  · intro i hlen_i
    rw [List.length_take, hlen] at hlen_i
    have hi : i < w * h * bpp := by omega
    have hwb0 : 0 < w * bpp := by
      by_contra h0
      push_neg at h0
      have h0e : w * bpp = 0 := by omega
      have h6 : w * h * bpp = (w * bpp) * h := by ring
      rw [h0e, Nat.zero_mul] at h6
      omega
    rw [getD_take _ _ _ hi (by
      rw [hlen]
      have h7 : w * h * bpp = (w * bpp) * h := by ring
      have h8 : (w * bpp) * h ≤ pitch * h := Nat.mul_le_mul_right h hwp
      omega)]
    set y0 := i / (w * bpp) with hy0def
    set r := i % (w * bpp) with hrdef
    set x0 := r / bpp with hx0def
    set k := r % bpp with hkdef
    have hir : i = y0 * (w * bpp) + r := by
      rw [hy0def, hrdef]
      have h9 := Nat.div_add_mod i (w * bpp)
      calc i = w * bpp * (i / (w * bpp)) + i % (w * bpp) := h9.symm
        _ = i / (w * bpp) * (w * bpp) + i % (w * bpp) := by ring
    have hrlt : r < w * bpp := Nat.mod_lt _ hwb0
    have hrk : r = x0 * bpp + k := by
      rw [hx0def, hkdef]
      have h9 := Nat.div_add_mod r bpp
      calc r = bpp * (r / bpp) + r % bpp := h9.symm
        _ = r / bpp * bpp + r % bpp := by ring
    have hklt : k < bpp := Nat.mod_lt _ hb
    have hx0lt : x0 < w := by
      rw [hx0def]
      exact (Nat.div_lt_iff_lt_mul hb).mpr (by omega)
    have hy0lt : y0 < h := by
      rw [hy0def]
      apply (Nat.div_lt_iff_lt_mul hwb0).mpr
      have h6 : h * (w * bpp) = w * h * bpp := by ring
      omega
    have hsplit : (y0 * w + x0) * bpp = y0 * (w * bpp) + x0 * bpp := by ring
    have hidx : (y0 * w + x0) * bpp + k = i := by omega
    rw [show i = (y0 * w + x0) * bpp + k from hidx.symm]
    rw [hval y0 x0 k hy0lt hx0lt hklt]
    rw [show (y0 * w + x0) * bpp + k = y0 * (w * bpp) + r from by omega]
    rw [show y0 * pitch + x0 * bpp + k = y0 * pitch + r from by omega]
    exact (unpadLinear_getD data pitch (w * bpp) h hrowlen y0 r hy0lt hrlt).symm

/-- C3. Linear-mode identity: for `tileMode = 0` and positive block-grid
dimensions and block size, the deswizzle output (its meaningful prefix of
length `gridW * gridH * bytesPerBlock`, which the caller keeps) equals the
input reinterpreted with row pitch `roundUp(gridW*bytesPerBlock, 32)` minus
the per-row padding, provided the payload covers the `pitch * gridH`
reinterpreted surface, `alignment ≥ 1`, and the u32 size computation does
not overflow. -/
theorem c3_linear_mode_deletes_row_padding
    (width height blkWidth blkHeight bpp alignment size_range : Nat) (data : List Nat)
    (hw : 0 < DIV_ROUND_UP width blkWidth)
    (hh : 0 < DIV_ROUND_UP height blkHeight)
    (hb : 0 < bpp)
    (hal1 : 1 ≤ alignment) (hal2 : alignment ≤ 2 ^ 31)
    (hwb : DIV_ROUND_UP width blkWidth * bpp ≤ 2 ^ 31)
    (hph : deswizzlePitch 0 (DIV_ROUND_UP width blkWidth) bpp *
        DIV_ROUND_UP height blkHeight ≤ 2 ^ 31)
    (hdata : deswizzlePitch 0 (DIV_ROUND_UP width blkWidth) bpp *
        DIV_ROUND_UP height blkHeight ≤ data.length) :
    (deswizzle width height blkWidth blkHeight bpp 0 alignment size_range data).take
        (DIV_ROUND_UP width blkWidth * DIV_ROUND_UP height blkHeight * bpp) =
      unpadLinear data (deswizzlePitch 0 (DIV_ROUND_UP width blkWidth) bpp)
        (DIV_ROUND_UP width blkWidth * bpp) (DIV_ROUND_UP height blkHeight) := by
  have hU32 : (2 : Nat) ^ 31 < U32 := by norm_num [U32]
  have hwb1 : 1 ≤ DIV_ROUND_UP width blkWidth * bpp := Nat.mul_pos hw hb
  have hwbm : (DIV_ROUND_UP width blkWidth * bpp) % U32 = DIV_ROUND_UP width blkWidth * bpp :=
    Nat.mod_eq_of_lt (by omega)
  have hpv : deswizzlePitch 0 (DIV_ROUND_UP width blkWidth) bpp =
      round_up (DIV_ROUND_UP width blkWidth * bpp) 32 := by
    rw [deswizzlePitch, if_pos rfl, hwbm]
  have hpitch := round_up_bounds (DIV_ROUND_UP width blkWidth * bpp) 32 hwb1 hwb
    (by norm_num) (by norm_num)
  rw [hpv] at hph hdata
  have hwp : DIV_ROUND_UP width blkWidth * bpp ≤
      round_up (DIV_ROUND_UP width blkWidth * bpp) 32 := hpitch.1
  have hp1 : 1 ≤ round_up (DIV_ROUND_UP width blkWidth * bpp) 32 := le_trans hwb1 hwp
  have hphm : (round_up (DIV_ROUND_UP width blkWidth * bpp) 32 *
      DIV_ROUND_UP height blkHeight) % U32 =
      round_up (DIV_ROUND_UP width blkWidth * bpp) 32 * DIV_ROUND_UP height blkHeight :=
    Nat.mod_eq_of_lt (by omega)
  have hsurf := round_up_bounds
    (round_up (DIV_ROUND_UP width blkWidth * bpp) 32 * DIV_ROUND_UP height blkHeight)
    alignment (Nat.mul_pos hp1 hh) hph hal1 hal2
  have hsv : deswizzleSurfSize 0 alignment (2 ^ size_range % U32)
      (deswizzlePitch 0 (DIV_ROUND_UP width blkWidth) bpp)
      (DIV_ROUND_UP height blkHeight) =
      round_up (round_up (DIV_ROUND_UP width blkWidth * bpp) 32 *
        DIV_ROUND_UP height blkHeight) alignment := by
    rw [deswizzleSurfSize, if_pos rfl, hpv, hphm]
  rw [deswizzle, hsv, hpv]
  exact deswizzle_linear_core data bpp (DIV_ROUND_UP width blkWidth)
    (DIV_ROUND_UP height blkHeight) (2 ^ size_range % U32)
    (round_up (DIV_ROUND_UP width blkWidth * bpp) 32)
    (round_up (round_up (DIV_ROUND_UP width blkWidth * bpp) 32 *
      DIV_ROUND_UP height blkHeight) alignment)
    hb hwp hsurf.1 (by omega) hdata

theorem c3_linear_mode_deletes_row_padding_witness :
    (deswizzle 1 2 1 1 1 0 1 0 (List.range 64)).take
        (DIV_ROUND_UP 1 1 * DIV_ROUND_UP 2 1 * 1) =
      unpadLinear (List.range 64) (deswizzlePitch 0 (DIV_ROUND_UP 1 1) 1)
        (DIV_ROUND_UP 1 1 * 1) (DIV_ROUND_UP 2 1) :=
  c3_linear_mode_deletes_row_padding 1 2 1 1 1 1 0 (List.range 64)
    (by decide) (by decide) (by decide) (by decide) (by decide) (by decide)
    (by decide) (by decide)

/-- The `formats` lookup table from src/main.cpp (format code to name). -/
def formats : List (Nat × String) :=
  [(0x0b, "R8_G8_B8_A8"), (0x07, "R5_G6_B5"), (0x02, "R8_UNORM"), (0x09, "R8_G8"),
   (0x1a, "BC1"), (0x1b, "BC2"), (0x1c, "BC3"), (0x1d, "BC4"), (0x1e, "BC5"),
   (0x1f, "BC6H"), (0x20, "BC7"),
   (0x2d, "ASTC4x4"), (0x2e, "ASTC5x4"), (0x2f, "ASTC5x5"), (0x30, "ASTC6x5"),
   (0x31, "ASTC6x6"), (0x32, "ASTC8x5"), (0x33, "ASTC8x6"), (0x34, "ASTC8x8"),
   (0x35, "ASTC10x5"), (0x36, "ASTC10x6"), (0x37, "ASTC10x8"), (0x38, "ASTC10x10"),
   (0x39, "ASTC12x10"), (0x3a, "ASTC12x12")]

/-- The `bpps` lookup table from src/main.cpp (format code to bytes per block). -/
def bpps : List (Nat × Nat) :=
  [(0x0b, 4), (0x07, 2), (0x02, 1), (0x09, 2), (0x1a, 8),
   (0x1b, 16), (0x1c, 16), (0x1d, 8), (0x1e, 16), (0x1f, 16),
   (0x20, 16), (0x2d, 16), (0x2e, 16), (0x2f, 16), (0x30, 16),
   (0x31, 16), (0x32, 16), (0x33, 16), (0x34, 16), (0x35, 16),
   (0x36, 16), (0x37, 16), (0x38, 16), (0x39, 16), (0x3a, 16)]

/-- The `blkDims` lookup table from src/main.cpp (format code to block dims). -/
def blkDims : List (Nat × (Nat × Nat)) :=
  [(0x1a, (4, 4)), (0x1b, (4, 4)), (0x1c, (4, 4)), (0x1d, (4, 4)), (0x1e, (4, 4)),
   (0x1f, (4, 4)), (0x20, (4, 4)), (0x2d, (4, 4)), (0x2e, (5, 4)), (0x2f, (5, 5)),
   (0x30, (6, 5)), (0x31, (6, 6)), (0x32, (8, 5)), (0x33, (8, 6)), (0x34, (8, 8)),
   (0x35, (10, 5)), (0x36, (10, 6)), (0x37, (10, 8)), (0x38, (10, 10)), (0x39, (12, 10)),
   (0x3a, (12, 12))]

/-- `BNTXTexture` from src/main.cpp. -/
structure BNTXTexture where
  name : String
  width : Nat
  height : Nat
  format : Nat
  tileMode : Nat
  sizeRange : Nat
  alignment : Nat
  imageSize : Nat
  data : List Nat
  deriving DecidableEq

/-- Body of the per-texture loop of `parseBNTX` in src/main.cpp (iteration
`i`), with the `continue` sites modelled as `Except.error` carrying the
diagnostic message printed to `cerr`.  Each iteration depends only on the
buffer, the info-pointer array address and its own index. -/
def parseTexture (f : List Nat) (infoPtrAddr : Int) (i : Nat) :
    Except String BNTXTexture :=
  let texInfoAddr := Read64LE_Signed f (infoPtrAddr + i * 8)
  if texInfoAddr < 0 ∨ (f.length : Int) ≤ texInfoAddr then
    .error "Invalid texture info address!"
  else
    let pos := texInfoAddr
    if magic4 f pos ≠ [0x42, 0x52, 0x54, 0x49] then
      .error "Invalid BRTI magic!"
    else
      let tileMode := byteAt f (pos + 0x10)
      let format := Read32LE f (pos + 0x1C)
      let width := Read32LE f (pos + 0x24)
      let height := Read32LE f (pos + 0x28)
      let sizeRange := Read32LE f (pos + 0x34)
      let imageSize := Read32LE f (pos + 0x50)
      let alignment := Read32LE f (pos + 0x54)
      let nameAddr := Read64LE_Signed f (pos + 0x60)
      let ptrsAddr := Read64LE_Signed f (pos + 0x70)
      let nameLen := Read16LE f nameAddr
      let name := ReadString f (nameAddr + 2) nameLen
      let dataAddr := Read64LE_Signed f ptrsAddr
      if dataAddr < 0 ∨ (f.length : Int) < dataAddr + imageSize then
        .error "Invalid data address!"
      else
        .ok { name := name, width := width, height := height, format := format,
              tileMode := tileMode, sizeRange := sizeRange, alignment := alignment,
              imageSize := imageSize, data := (f.drop dataAddr.toNat).take imageSize }

/-- `parseBNTX` from src/main.cpp.  The first component collects the
constant diagnostic messages the source prints to `cerr`; the second is
the accumulated texture list.  The header fields are read at absolute
offsets `0x24`/`0x28` (the source computes them as `pos + 0x04`/`pos + 0x08`
with `pos = 0x20`). -/
def parseBNTX (f : List Nat) : List String × List BNTXTexture :=
  if f.length < 0x100 then (["File too small!"], [])
  else if magic4 f 0 ≠ [0x42, 0x4E, 0x54, 0x58] then (["Not a valid BNTX file!"], [])
  else if ¬ (byteAt f 0xc = 0xFF ∧ byteAt f 0xd = 0xFE) then
    (["Big endian not supported!"], [])
  else if magic4 f 0x20 ≠ [0x4E, 0x58, 0x20, 0x20] then (["Invalid NX header!"], [])
  else
    let texCount := Read32LE f 0x24
    let infoPtrAddr := Read64LE_Signed f 0x28
    (List.range texCount).foldl
      (fun acc i =>
        match parseTexture f infoPtrAddr i with
        | .error m => (acc.1 ++ [m], acc.2)
        | .ok t => (acc.1, acc.2 ++ [t]))
      ([], [])

/-- The four fatal `cerr` diagnostics of `parseBNTX` in src/main.cpp. -/
def bntxFatalMsgs : List String :=
  ["File too small!", "Not a valid BNTX file!", "Big endian not supported!",
   "Invalid NX header!"]

/-- Little-endian byte image of a u32 value (the effect of the source's
`memcpy` of a `u32` into the header on the little-endian target). -/
def le32 (v : Nat) : List Nat :=
  [v % 256, v / 256 % 256, v / 65536 % 256, v / 16777216 % 256]

/-- The FourCC selection chain of `generateDDSHeader` in src/main.cpp. -/
def fourccOf (format : Nat) : Option (List Nat) :=
  if format = 0x1a then some [0x44, 0x58, 0x54, 0x31]
  else if format = 0x1b then some [0x44, 0x58, 0x54, 0x33]
  else if format = 0x1c then some [0x44, 0x58, 0x54, 0x35]
  else if format = 0x1d then some [0x41, 0x54, 0x49, 0x31]
  else if format = 0x1e then some [0x41, 0x54, 0x49, 0x32]
  else if format = 0x1f then some [0x42, 0x43, 0x36, 0x48]
  else if format = 0x20 then some [0x42, 0x43, 0x37, 0x20]
  else none

/-- The writes of `generateDDSHeader` in src/main.cpp that precede the
FourCC write: magic, header size, flags, height, width, linear size,
mip count, pixel-format size and pixel-format flags. -/
def ddsHeaderBase (width height size : Nat) : List Nat :=
  let header := List.replicate 128 0
  let header := (((header.set 0 0x44).set 1 0x44).set 2 0x53).set 3 0x20
  let header := setBytes header 4 (le32 124)
  let header := setBytes header 8 (le32 (0x1 ||| 0x2 ||| 0x4 ||| 0x1000 ||| 0x80000))
  let header := setBytes header 12 (le32 height)
  let header := setBytes header 16 (le32 width)
  let header := setBytes header 20 (le32 size)
  let header := setBytes header 28 (le32 1)
  let header := setBytes header 76 (le32 32)
  setBytes header 80 (le32 4)

/-- `generateDDSHeader` from src/main.cpp: the base writes, then the
conditional FourCC write at offset 84, then the caps write at 108. -/
def generateDDSHeader (width height format size : Nat) : List Nat :=
  let header := ddsHeaderBase width height size
  let header :=
    match fourccOf format with
    | some cc => setBytes header 84 cc
    | none => header
  setBytes header 108 (le32 0x1000)

/-- The lookup key `formatType = tex.format >> 8` computed by
`saveTextures` in src/main.cpp. -/
def formatType (tex : BNTXTexture) : Nat :=
  tex.format >>> 8

/-- Body of the per-texture loop of `saveTextures` in src/main.cpp:
the artifact `(fileName, headerBytes, payloadBytes)` written for a
texture, or `none` when the format lookup fails and the texture is
skipped. -/
def saveTexture (tex : BNTXTexture) : Option (String × List Nat × List Nat) :=
  if (formats.lookup (formatType tex)).isSome then
    let blkWidth := match blkDims.lookup (formatType tex) with
      | some d => d.1
      | none => 1
    let blkHeight := match blkDims.lookup (formatType tex) with
      | some d => d.2
      | none => 1
    let bpp := match bpps.lookup (formatType tex) with
      | some b => b
      | none => 4
    let size := (DIV_ROUND_UP tex.width blkWidth * DIV_ROUND_UP tex.height blkHeight) % U32
      * bpp % U32
    let result := deswizzle tex.width tex.height blkWidth blkHeight bpp tex.tileMode
      tex.alignment tex.sizeRange tex.data
    let result := if size < result.length then result.take size else result
    let header := generateDDSHeader tex.width tex.height (formatType tex) size
    some (tex.name ++ ".dds", header, result)
  else none

theorem parseTexture_ok_payload (f : List Nat) (a : Int) (i : Nat) (t : BNTXTexture)
    (h : parseTexture f a i = .ok t) : t.data.length = t.imageSize := by
  rw [parseTexture] at h
  dsimp only at h
  split at h
  · exact absurd h (by simp)
  · split at h
    · exact absurd h (by simp)
    · split at h
      · exact absurd h (by simp)
      · rename_i hc1 _ hc3
        have ht := (Except.ok.inj h).symm
        rw [ht]
        dsimp only
        push_neg at hc1 hc3
        rw [List.length_take, List.length_drop]
        omega

theorem parseTexture_error_mem (f : List Nat) (a : Int) (i : Nat) (m : String)
    (h : parseTexture f a i = .error m) :
    m ∈ ["Invalid texture info address!", "Invalid BRTI magic!", "Invalid data address!"] := by
  rw [parseTexture] at h
  dsimp only at h
  split at h
  · have := (Except.error.inj h).symm
    simp [this]
  · split at h
    · have := (Except.error.inj h).symm
      simp [this]
    · split at h
      · have := (Except.error.inj h).symm
        simp [this]
      · exact absurd h (by simp)

theorem parseFold_snd (f : List Nat) (a : Int) :
    ∀ (l : List Nat) (acc : List String × List BNTXTexture),
    (l.foldl (fun acc i =>
      match parseTexture f a i with
      | .error m => (acc.1 ++ [m], acc.2)
      | .ok t => (acc.1, acc.2 ++ [t])) acc).2 =
    acc.2 ++ l.filterMap (fun i => (parseTexture f a i).toOption) := by
  intro l
  induction l with
  | nil => intro acc; simp
  | cons b rest ih =>
    intro acc
    rw [List.foldl_cons, List.filterMap_cons]
    cases hpt : parseTexture f a b with
    | error m => simp [hpt, ih, Except.toOption]
    | ok t => simp [hpt, ih, Except.toOption]

theorem parseFold_msgs (f : List Nat) (a : Int) :
    ∀ (l : List Nat) (acc : List String × List BNTXTexture),
    (∀ m ∈ acc.1,
      m ∈ ["Invalid texture info address!", "Invalid BRTI magic!", "Invalid data address!"]) →
    ∀ m ∈ (l.foldl (fun acc i =>
      match parseTexture f a i with
      | .error m => (acc.1 ++ [m], acc.2)
      | .ok t => (acc.1, acc.2 ++ [t])) acc).1,
    m ∈ ["Invalid texture info address!", "Invalid BRTI magic!", "Invalid data address!"] := by
  intro l
  induction l with
  | nil => intro acc hacc; exact hacc
  | cons b rest ih =>
    intro acc hacc
    rw [List.foldl_cons]
    cases hpt : parseTexture f a b with
    | error m =>
      simp only [hpt]
      apply ih
      intro m2 hm2
      rcases List.mem_append.mp hm2 with hm2 | hm2
      · exact hacc m2 hm2
      · have : m2 = m := by simpa using hm2
        rw [this]
        exact parseTexture_error_mem f a b m hpt
    | ok t =>
      simp only [hpt]
      exact ih (acc.1, acc.2 ++ [t]) hacc

/-- C6 (amended). Every texture the parser appends has
`payload.length = declaredImageSize` (the `width > 0` / `height > 0` part
of the original claim is not enforced by the parser). -/
theorem c6_amended_payload_matches_declared (f : List Nat) (t : BNTXTexture)
    (ht : t ∈ (parseBNTX f).2) : t.data.length = t.imageSize := by
  rw [parseBNTX] at ht
  split at ht
  · simp at ht
  · split at ht
    · simp at ht
    · split at ht
      · simp at ht
      · split at ht
        · simp at ht
        · revert ht
          refine foldlPreserve
            (fun acc : List String × List BNTXTexture =>
              t ∈ acc.2 → t.data.length = t.imageSize) _ _ _ (by simp) ?_
          intro acc b _ hacc
          cases hpt : parseTexture f (Read64LE_Signed f 0x28) b with
          | error m => simp only [hpt]; exact hacc
          | ok t2 =>
            simp only [hpt]
            intro hmem
            rcases List.mem_append.mp hmem with hm | hm
            · exact hacc hm
            · have : t = t2 := by simpa using hm
              rw [this]
              exact parseTexture_ok_payload f _ b t2 hpt

/-- C4. A texture index is skipped (no texture produced) exactly when its
8-byte signed info pointer is negative or at least the buffer length, or
the record at the resolved offset lacks the "BRTI" magic, or the data
pointer read via the data-pointer table is negative or
`dataPointer + declaredImageSize` exceeds the buffer length; and on a
structurally valid container the parser's texture list is the `filterMap`
of the pure per-index function, so one index's skip cannot affect another
index's result. -/
theorem c4_skip_conditions (f : List Nat) (a : Int) (i : Nat) :
    ((parseTexture f a i).toOption = none ↔
      (Read64LE_Signed f (a + i * 8) < 0 ∨
       (f.length : Int) ≤ Read64LE_Signed f (a + i * 8) ∨
       magic4 f (Read64LE_Signed f (a + i * 8)) ≠ [0x42, 0x52, 0x54, 0x49] ∨
       Read64LE_Signed f (Read64LE_Signed f (Read64LE_Signed f (a + i * 8) + 0x70)) < 0 ∨
       (f.length : Int) <
         Read64LE_Signed f (Read64LE_Signed f (Read64LE_Signed f (a + i * 8) + 0x70)) +
           (Read32LE f (Read64LE_Signed f (a + i * 8) + 0x50) : Nat))) ∧
    (¬ (f.length < 0x100 ∨ magic4 f 0 ≠ [0x42, 0x4E, 0x54, 0x58] ∨
        ¬ (byteAt f 0xc = 0xFF ∧ byteAt f 0xd = 0xFE) ∨
        magic4 f 0x20 ≠ [0x4E, 0x58, 0x20, 0x20]) →
      (parseBNTX f).2 = (List.range (Read32LE f 0x24)).filterMap
        (fun j => (parseTexture f (Read64LE_Signed f 0x28) j).toOption)) := by
  constructor
  · rw [parseTexture]
    dsimp only
    split_ifs with h1 h2 h3
    · exact iff_of_true rfl (by tauto)
    · exact iff_of_true rfl (by tauto)
    · exact iff_of_true rfl (by tauto)
    · refine iff_of_false (by simp [Except.toOption]) ?_
      rintro (h | h | h | h | h)
      exacts [h1 (Or.inl h), h1 (Or.inr h), h2 h, h3 (Or.inl h), h3 (Or.inr h)]
  · intro hvalid
    push_neg at hvalid
    obtain ⟨hv1, hv2, hv3, hv4⟩ := hvalid
    rw [parseBNTX, if_neg (by omega), if_neg (not_not_intro hv2),
      if_neg (not_not_intro hv3), if_neg (not_not_intro hv4)]
    dsimp only
    rw [parseFold_snd]
    simp

/-- A structurally valid 512-byte BNTX container holding one BRTI record
whose width and height fields are zero; the parser accepts it. -/
def cexBuf : List Nat :=
  let f := List.replicate 0x200 0
  let f := setBytes f 0 [0x42, 0x4E, 0x54, 0x58]
  let f := setBytes f 0xc [0xFF, 0xFE]
  let f := setBytes f 0x20 [0x4E, 0x58, 0x20, 0x20]
  let f := setBytes f 0x24 [1, 0, 0, 0]
  let f := setBytes f 0x28 [0x40, 0, 0, 0, 0, 0, 0, 0]
  let f := setBytes f 0x40 [0x80, 0, 0, 0, 0, 0, 0, 0]
  let f := setBytes f 0x80 [0x42, 0x52, 0x54, 0x49]
  let f := setBytes f 0xE0 [0, 1, 0, 0, 0, 0, 0, 0]
  setBytes f 0xF0 [0x48, 0, 0, 0, 0, 0, 0, 0]

set_option maxRecDepth 8000 in
theorem c4_skip_conditions_witness :
    (¬ (cexBuf.length < 0x100 ∨ magic4 cexBuf 0 ≠ [0x42, 0x4E, 0x54, 0x58] ∨
        ¬ (byteAt cexBuf 0xc = 0xFF ∧ byteAt cexBuf 0xd = 0xFE) ∨
        magic4 cexBuf 0x20 ≠ [0x4E, 0x58, 0x20, 0x20])) ∧
    (parseBNTX cexBuf).2 = (List.range (Read32LE cexBuf 0x24)).filterMap
      (fun j => (parseTexture cexBuf (Read64LE_Signed cexBuf 0x28) j).toOption) :=
  ⟨by decide, (c4_skip_conditions cexBuf 0 0).2 (by decide)⟩

/-- C5. The parser aborts the whole conversion with a fatal `cerr`
diagnostic, yielding no textures, exactly when the buffer is shorter than
0x100 bytes, the "BNTX" magic is wrong, the endianness byte pair at 0xC is
not FF FE, or the "NX  " sub-header magic at 0x20 is wrong; a structurally
valid container (even one yielding zero textures) never emits a fatal
diagnostic, so the parse-failure outcome is observably distinct from
`NoTexturesFound`. -/
theorem c5_fatal_exactly_on_invalid_container (f : List Nat) :
    ((∃ m ∈ bntxFatalMsgs, m ∈ (parseBNTX f).1) ↔
      (f.length < 0x100 ∨ magic4 f 0 ≠ [0x42, 0x4E, 0x54, 0x58] ∨
        ¬ (byteAt f 0xc = 0xFF ∧ byteAt f 0xd = 0xFE) ∨
        magic4 f 0x20 ≠ [0x4E, 0x58, 0x20, 0x20])) ∧
    ((f.length < 0x100 ∨ magic4 f 0 ≠ [0x42, 0x4E, 0x54, 0x58] ∨
        ¬ (byteAt f 0xc = 0xFF ∧ byteAt f 0xd = 0xFE) ∨
        magic4 f 0x20 ≠ [0x4E, 0x58, 0x20, 0x20]) →
      (parseBNTX f).2 = []) := by
  by_cases h1 : f.length < 0x100
  · refine ⟨iff_of_true ?_ (Or.inl h1), fun _ => by rw [parseBNTX, if_pos h1]⟩
    rw [parseBNTX, if_pos h1]
    exact ⟨"File too small!", by decide, by simp⟩
  · by_cases h2 : magic4 f 0 ≠ [0x42, 0x4E, 0x54, 0x58]
    · refine ⟨iff_of_true ?_ (Or.inr (Or.inl h2)),
        fun _ => by rw [parseBNTX, if_neg h1, if_pos h2]⟩
      rw [parseBNTX, if_neg h1, if_pos h2]
      exact ⟨"Not a valid BNTX file!", by decide, by simp⟩
    · by_cases h3 : ¬ (byteAt f 0xc = 0xFF ∧ byteAt f 0xd = 0xFE)
      · refine ⟨iff_of_true ?_ (Or.inr (Or.inr (Or.inl h3))),
          fun _ => by rw [parseBNTX, if_neg h1, if_neg h2, if_pos h3]⟩
        rw [parseBNTX, if_neg h1, if_neg h2, if_pos h3]
        exact ⟨"Big endian not supported!", by decide, by simp⟩
      · by_cases h4 : magic4 f 0x20 ≠ [0x4E, 0x58, 0x20, 0x20]
        · refine ⟨iff_of_true ?_ (Or.inr (Or.inr (Or.inr h4))),
            fun _ => by rw [parseBNTX, if_neg h1, if_neg h2, if_neg h3, if_pos h4]⟩
          rw [parseBNTX, if_neg h1, if_neg h2, if_neg h3, if_pos h4]
          exact ⟨"Invalid NX header!", by decide, by simp⟩
        · have hfalse : ¬ (f.length < 0x100 ∨ magic4 f 0 ≠ [0x42, 0x4E, 0x54, 0x58] ∨
              ¬ (byteAt f 0xc = 0xFF ∧ byteAt f 0xd = 0xFE) ∨
              magic4 f 0x20 ≠ [0x4E, 0x58, 0x20, 0x20]) := by tauto
          refine ⟨iff_of_false ?_ hfalse, fun hc => absurd hc hfalse⟩
          rintro ⟨m, hm1, hm2⟩
          rw [parseBNTX, if_neg h1, if_neg h2, if_neg h3, if_neg h4] at hm2
          dsimp only at hm2
          have hmem := parseFold_msgs f (Read64LE_Signed f 0x28)
            (List.range (Read32LE f 0x24)) ([], []) (by simp) m hm2
          simp only [bntxFatalMsgs, List.mem_cons, List.not_mem_nil, or_false] at hm1
          rcases hm1 with rfl | rfl | rfl | rfl <;> exact absurd hmem (by decide)

theorem c5_fatal_exactly_on_invalid_container_witness :
    ([] : List Nat).length < 0x100 ∧ (parseBNTX ([] : List Nat)).2 = [] :=
  ⟨by decide, (c5_fatal_exactly_on_invalid_container []).2 (Or.inl (by decide))⟩

set_option maxRecDepth 4000 in
/-- C6 counterexample. The claim asserts every appended TextureRecord has
`width > 0` and `height > 0`, but the parser never validates the width
and height fields: `cexBuf` is a structurally valid container whose one
texture is appended with `width = height = 0`. -/
theorem c6_parser_accepts_zero_dimensions :
    ¬ (∀ t ∈ (parseBNTX cexBuf).2,
      t.data.length = t.imageSize ∧ 0 < t.width ∧ 0 < t.height) := by decide

set_option maxRecDepth 8000 in
theorem c6_amended_payload_matches_declared_witness :
    (⟨"", 0, 0, 0, 0, 0, 0, 0, []⟩ : BNTXTexture) ∈ (parseBNTX cexBuf).2 ∧
    (⟨"", 0, 0, 0, 0, 0, 0, 0, []⟩ : BNTXTexture).data.length =
      (⟨"", 0, 0, 0, 0, 0, 0, 0, []⟩ : BNTXTexture).imageSize :=
  ⟨by decide, c6_amended_payload_matches_declared cexBuf _ (by decide)⟩

def c7tex : BNTXTexture :=
  { name := "t", width := 4, height := 4, format := 0x1c06, tileMode := 0,
    sizeRange := 0, alignment := 1, imageSize := 16, data := List.replicate 16 3 }

/-- C7 counterexample. The claim says the format-table key is the top
(most significant) byte of the raw 32-bit format field, i.e.
`format >> 24`.  The code computes `format >> 8`: for the realistic raw
format value 0x1c06 (BC3 with a dataType low byte) the key used is 0x1c
while the top byte is 0, which has no table entry at all. -/
theorem c7_key_is_not_top_byte :
    formatType c7tex ≠ c7tex.format >>> 24 ∧
    (saveTexture c7tex).isSome = true ∧
    (formats.lookup (c7tex.format >>> 24)).isNone = true := by decide

/-- C7 as amended: the key used by `saveTextures` for every lookup (and
for header synthesis) is the raw format field shifted right by 8 bits,
so the artifact produced for a texture depends on the format field only
through `format >> 8`. -/
theorem c7_amended_key_is_format_shr8 (t : BNTXTexture) (v : Nat)
    (hv : v >>> 8 = t.format >>> 8) :
    formatType t = t.format >>> 8 ∧
    saveTexture { t with format := v } = saveTexture t := by
  constructor
  · rfl
  · have hft : formatType { t with format := v } = formatType t := by
      simp [formatType, hv]
    rw [saveTexture, saveTexture, hft]

theorem c7_amended_key_is_format_shr8_witness :
    ((0x991c07 : Nat) >>> 8 = c7tex.format >>> 8 → False) ∧
    ((0x1c07 : Nat) >>> 8 = c7tex.format >>> 8) ∧
    saveTexture { c7tex with format := 0x1c07 } = saveTexture c7tex :=
  ⟨by decide, by decide, (c7_amended_key_is_format_shr8 c7tex 0x1c07 (by decide)).2⟩

/-- The four FourCC bytes [84,88) of a DDS header byte list. -/
def fourccRegion (l : List Nat) : List Nat :=
  [l.getD 84 0, l.getD 85 0, l.getD 86 0, l.getD 87 0]

theorem le32_length (v : Nat) : (le32 v).length = 4 := rfl

theorem getD_set_ne (l : List Nat) (p b i : Nat) (h : i ≠ p) :
    (l.set p b).getD i 0 = l.getD i 0 := by
  simp [List.getD, List.getElem?_set_ne (Ne.symm h)]

theorem ddsHeaderBase_length (w h s : Nat) : (ddsHeaderBase w h s).length = 128 := by
  rw [ddsHeaderBase]
  simp [setBytes_length]

theorem ddsHeaderBase_getD_hi (w h s i : Nat) (hi : 84 ≤ i) :
    (ddsHeaderBase w h s).getD i 0 = 0 := by
  rw [ddsHeaderBase]
  rw [setBytes_getD_out _ _ _ _ (Or.inr (by rw [le32_length]; omega))]
  rw [setBytes_getD_out _ _ _ _ (Or.inr (by rw [le32_length]; omega))]
  rw [setBytes_getD_out _ _ _ _ (Or.inr (by rw [le32_length]; omega))]
  rw [setBytes_getD_out _ _ _ _ (Or.inr (by rw [le32_length]; omega))]
  rw [setBytes_getD_out _ _ _ _ (Or.inr (by rw [le32_length]; omega))]
  rw [setBytes_getD_out _ _ _ _ (Or.inr (by rw [le32_length]; omega))]
  rw [setBytes_getD_out _ _ _ _ (Or.inr (by rw [le32_length]; omega))]
  rw [setBytes_getD_out _ _ _ _ (Or.inr (by rw [le32_length]; omega))]
  rw [getD_set_ne _ _ _ _ (by omega), getD_set_ne _ _ _ _ (by omega),
    getD_set_ne _ _ _ _ (by omega), getD_set_ne _ _ _ _ (by omega)]
  exact getD_replicate_zero _ _

theorem fourccOf_length (fmt : Nat) (cc : List Nat) (h : fourccOf fmt = some cc) :
    cc.length = 4 := by
  rw [fourccOf] at h
  split_ifs at h
  all_goals first
    | (rw [← Option.some.inj h]; rfl)
    | exact absurd h (by simp)

theorem list_eq_four_getD (cc : List Nat) (h : cc.length = 4) :
    [cc.getD 0 0, cc.getD 1 0, cc.getD 2 0, cc.getD 3 0] = cc := by
  rcases cc with _ | ⟨a, cc⟩
  · simp at h
  rcases cc with _ | ⟨b, cc⟩
  · simp at h
  rcases cc with _ | ⟨c, cc⟩
  · simp at h
  rcases cc with _ | ⟨d, cc⟩
  · simp at h
  rcases cc with _ | ⟨e, cc⟩
  · rfl
  · simp at h

theorem fourccRegion_write (base cc : List Nat) (hb : base.length = 128)
    (hcc : cc.length = 4) :
    fourccRegion (setBytes (setBytes base 84 cc) 108 (le32 4096)) = cc := by
  have hj : ∀ j, j < 4 →
      (setBytes (setBytes base 84 cc) 108 (le32 4096)).getD (84 + j) 0 = cc.getD j 0 := by
    intro j hj4
    rw [setBytes_getD_out _ _ _ _ (Or.inl (by omega))]
    exact setBytes_getD_in cc base 84 j (by omega) (by omega)
  have e0 : (setBytes (setBytes base 84 cc) 108 (le32 4096)).getD 84 0 = cc.getD 0 0 :=
    hj 0 (by omega)
  have e1 : (setBytes (setBytes base 84 cc) 108 (le32 4096)).getD 85 0 = cc.getD 1 0 :=
    hj 1 (by omega)
  have e2 : (setBytes (setBytes base 84 cc) 108 (le32 4096)).getD 86 0 = cc.getD 2 0 :=
    hj 2 (by omega)
  have e3 : (setBytes (setBytes base 84 cc) 108 (le32 4096)).getD 87 0 = cc.getD 3 0 :=
    hj 3 (by omega)
  rw [fourccRegion, e0, e1, e2, e3]
  exact list_eq_four_getD cc hcc

theorem fourccRegion_nowrite (base : List Nat)
    (hb : ∀ i, 84 ≤ i → base.getD i 0 = 0) :
    fourccRegion (setBytes base 108 (le32 4096)) = [0, 0, 0, 0] := by
  have hj : ∀ j, 84 ≤ j → j < 108 →
      (setBytes base 108 (le32 4096)).getD j 0 = 0 := by
    intro j hj1 hj2
    rw [setBytes_getD_out _ _ _ _ (Or.inl hj2)]
    exact hb j hj1
  rw [fourccRegion, hj 84 (by omega) (by omega), hj 85 (by omega) (by omega),
    hj 86 (by omega) (by omega), hj 87 (by omega) (by omega)]

theorem generateDDSHeader_fourccRegion (w h fmt s : Nat) :
    fourccRegion (generateDDSHeader w h fmt s) =
      match fourccOf fmt with
      | some cc => cc
      | none => [0, 0, 0, 0] := by
  cases hcc : fourccOf fmt with
  | none =>
    rw [generateDDSHeader]
    rw [hcc]
    exact fourccRegion_nowrite _ (fun i hi => ddsHeaderBase_getD_hi w h s i hi)
  | some cc =>
    rw [generateDDSHeader]
    rw [hcc]
    exact fourccRegion_write _ cc (ddsHeaderBase_length w h s) (fourccOf_length fmt cc hcc)

/-- The seven format codes with a DDS FourCC in src/main.cpp. -/
def fourccCodes : List Nat := [0x1a, 0x1b, 0x1c, 0x1d, 0x1e, 0x1f, 0x20]

theorem fourccOf_none_of_not_mem (fmt : Nat) (h : fmt ∉ fourccCodes) :
    fourccOf fmt = none := by
  rw [fourccOf]
  simp only [fourccCodes, List.mem_cons, List.not_mem_nil, or_false, not_or] at h
  obtain ⟨n1, n2, n3, n4, n5, n6, n7⟩ := h
  rw [if_neg n1, if_neg n2, if_neg n3, if_neg n4, if_neg n5, if_neg n6, if_neg n7]

set_option maxRecDepth 2000 in
/-- C9. The DDS header synthesizer, at width 256, height 256, format code
0x1c and linear size 65536, fills the 128-byte header with "DDS ", header
size 124, height and width 256, linear size 65536 and FourCC "DXT5"; and
in general the FourCC bytes [84,88) follow the fixed seven-entry table
(0x1a DXT1, 0x1b DXT3, 0x1c DXT5, 0x1d ATI1, 0x1e ATI2, 0x1f BC6H,
0x20 "BC7 ") and stay zero for every other format code. -/
theorem c9_dds_header_synthesis :
    ((generateDDSHeader 256 256 0x1c 65536).length = 128 ∧
     (generateDDSHeader 256 256 0x1c 65536).take 4 = [0x44, 0x44, 0x53, 0x20] ∧
     Read32LE (generateDDSHeader 256 256 0x1c 65536) 4 = 124 ∧
     Read32LE (generateDDSHeader 256 256 0x1c 65536) 12 = 256 ∧
     Read32LE (generateDDSHeader 256 256 0x1c 65536) 16 = 256 ∧
     Read32LE (generateDDSHeader 256 256 0x1c 65536) 20 = 65536 ∧
     ((generateDDSHeader 256 256 0x1c 65536).drop 84).take 4 = [0x44, 0x58, 0x54, 0x35]) ∧
    (∀ w h s : Nat,
      fourccRegion (generateDDSHeader w h 0x1a s) = [0x44, 0x58, 0x54, 0x31] ∧
      fourccRegion (generateDDSHeader w h 0x1b s) = [0x44, 0x58, 0x54, 0x33] ∧
      fourccRegion (generateDDSHeader w h 0x1c s) = [0x44, 0x58, 0x54, 0x35] ∧
      fourccRegion (generateDDSHeader w h 0x1d s) = [0x41, 0x54, 0x49, 0x31] ∧
      fourccRegion (generateDDSHeader w h 0x1e s) = [0x41, 0x54, 0x49, 0x32] ∧
      fourccRegion (generateDDSHeader w h 0x1f s) = [0x42, 0x43, 0x36, 0x48] ∧
      fourccRegion (generateDDSHeader w h 0x20 s) = [0x42, 0x43, 0x37, 0x20] ∧
      (∀ fmt, fmt ∉ fourccCodes →
        fourccRegion (generateDDSHeader w h fmt s) = [0, 0, 0, 0])) := by
  constructor
  · exact ⟨by decide, by decide, by decide, by decide, by decide, by decide, by decide⟩
  · intro w h s
    refine ⟨?_, ?_, ?_, ?_, ?_, ?_, ?_, ?_⟩
    · rw [generateDDSHeader_fourccRegion]; rfl
    · rw [generateDDSHeader_fourccRegion]; rfl
    · rw [generateDDSHeader_fourccRegion]; rfl
    · rw [generateDDSHeader_fourccRegion]; rfl
    · rw [generateDDSHeader_fourccRegion]; rfl
    · rw [generateDDSHeader_fourccRegion]; rfl
    · rw [generateDDSHeader_fourccRegion]; rfl
    · intro fmt hfmt
      rw [generateDDSHeader_fourccRegion, fourccOf_none_of_not_mem fmt hfmt]

theorem c9_dds_header_synthesis_witness :
    (0x99 : Nat) ∉ fourccCodes ∧
    fourccRegion (generateDDSHeader 7 9 0x99 11) = [0, 0, 0, 0] :=
  ⟨by decide, ((c9_dds_header_synthesis.2 7 9 11).2.2.2.2.2.2.2) 0x99 (by decide)⟩
